import Mathlib

/-!
# Verification of the gosiki-os port-allocation registry

Shallow embedding of the core logic of `core/port-manager/PortManager.mjs`
and `src/index.js` from the gosiki-os repository, together with theorems
settling the specified properties of allocation, release, group allocation
with rollback, and stale-entry eviction.

Modelling conventions:
* A JS object whose keys are integer-like strings (the `allocations` map)
  is modelled as an association list `List (Nat × α)` sorted strictly by
  key.  JS guarantees that such keys enumerate in ascending numeric order
  and that a map has no duplicate keys, so the sorted, duplicate-free list
  is the faithful model; well-formedness is carried as a hypothesis
  (`RegistryWF`) in theorems, following the style of verified sorted-map
  developments.
* A JS object with string keys built by repeated assignment (the
  `allocatedPorts` result of `allocateGroup`) is modelled as an
  association list in insertion order where assigning to an existing key
  overwrites its value in place (`insertS`).
* External OS effects (`checkPortAvailability`, `detectOccupier`,
  `killProcess`, `Get-NetTCPConnection`, `process.kill(pid, 0)`) are an
  environment of pure functions: each operation consults a fixed snapshot
  of the outside world.
* The registry file is `FileContent`: absent, unparsable, or holding a
  registry.  Each operation returns its result together with the list of
  registries passed to `saveRegistry`, in order; the file after the call
  is the last write (or the original content if no write happened).
* `new Date().toISOString()` is an opaque timestamp `now : Nat`;
  `randomUUID()` is an opaque `groupId : String` supplied by the caller;
  metadata objects are opaque `String` values (the empty object is `""`).
-/

namespace GosikiOS

/-! ## Association lists modelling JS objects -/

/-- Lookup in an integer-keyed JS object: `obj[k]`. -/
def lookupA {α : Type} : List (Nat × α) → Nat → Option α
  | [], _ => none
  | (q, b) :: rest, k => if q = k then some b else lookupA rest k

/-- Assignment `obj[k] = v` on an integer-keyed JS object, keeping the
list sorted by key (JS enumerates integer-like keys in ascending order);
an existing binding for `k` is overwritten. -/
def insertA {α : Type} : List (Nat × α) → Nat → α → List (Nat × α)
  | [], k, v => [(k, v)]
  | (q, b) :: rest, k, v =>
    if k < q then (k, v) :: (q, b) :: rest
    else if k = q then (k, v) :: rest
    else (q, b) :: insertA rest k v

/-- Deletion `delete obj[k]` on an integer-keyed JS object. -/
def eraseA {α : Type} (l : List (Nat × α)) (k : Nat) : List (Nat × α) :=
  l.filter (fun e => e.1 != k)

/-- Assignment `obj[k] = v` on a string-keyed JS object: overwrite in
place if the key exists, else append (insertion order). -/
def insertS {α : Type} : List (String × α) → String → α → List (String × α)
  | [], k, v => [(k, v)]
  | (q, b) :: rest, k, v =>
    if q = k then (k, v) :: rest else (q, b) :: insertS rest k v

/-- Keys of an association list. -/
def keysA {α : Type} (l : List (Nat × α)) : List Nat := l.map Prod.fst

/-- Well-formedness of the model of an integer-keyed JS object: keys are
strictly sorted (hence duplicate-free). -/
def SortedKeys {α : Type} (l : List (Nat × α)) : Prop :=
  List.Sorted (· < ·) (keysA l)


/-- The spec invariant on registry keys: every key is a valid TCP port
integer (1-65535). -/
def ValidKeys {α : Type} (l : List (Nat × α)) : Prop :=
  ∀ p ∈ keysA l, 1 ≤ p ∧ p ≤ 65535

instance decidableSortedKeys {α : Type} (l : List (Nat × α)) :
    Decidable (SortedKeys l) :=
  List.decidableSorted (keysA l)

instance decidableValidKeys {α : Type} (l : List (Nat × α)) :
    Decidable (ValidKeys l) :=
  List.decidableBAll _ _

/-! ## Registry store (`loadRegistry` / `saveRegistry`)

Both `core/port-manager/PortManager.mjs` (lines 46–65) and
`src/index.js` (lines 28–47) contain the same registry store: load the
JSON document, returning `{version: '1.0.0', allocations: {}}` when the
file is absent or `JSON.parse` throws; save overwrites the whole file.
The store is generic over the allocation record type, which differs
between the two variants. -/

/-- The persisted root object: `{version, allocations}`. -/
structure Registry (α : Type) where
  version : String
  allocations : List (Nat × α)
deriving Repr, DecidableEq

/-- State of the registry file on disk. -/
inductive FileContent (α : Type) where
  | absent
  | corrupt
  | valid (reg : Registry α)
deriving Repr, DecidableEq

/-- The fresh registry `{version: '1.0.0', allocations: {}}`. -/
def emptyRegistry {α : Type} : Registry α := ⟨"1.0.0", []⟩

/-- `loadRegistry`: absent or unparsable file yields the fresh registry. -/
def loadRegistry {α : Type} : FileContent α → Registry α
  | .absent => emptyRegistry
  | .corrupt => emptyRegistry
  | .valid reg => reg

/-- File content after a sequence of `saveRegistry` writes: the last
write wins; no write leaves the file as it was. -/
def applySaves {α : Type} (file : FileContent α) : List (Registry α) → FileContent α
  | [] => file
  | r :: rest => applySaves (.valid r) rest


end GosikiOS


namespace GosikiOS.PortManager

/-! ## PortManager.mjs data model -/

/-- An allocation record written by `PortManager`: `allocatedAt` is the
creation timestamp, `metadata` the caller-supplied opaque object,
`groupId`/`role` are present only for group allocations. -/
structure Alloc where
  allocatedAt : Nat
  metadata : String
  groupId : Option String
  role : Option String
deriving Repr, DecidableEq

/-- A port range `{start, end}` (`end` is called `stop` here because
`end` is reserved in Lean). -/
structure PortRange where
  start : Nat
  stop : Nat
deriving Repr, DecidableEq

/-- The process found listening on a port by `detectOccupier`. -/
structure Occupier where
  pid : Nat
  processName : String
deriving Repr, DecidableEq

/-- Snapshot of the outside world consulted by PortManager:
`osFree p` is `checkPortAvailability(p)`, `occupier p` is
`detectOccupier(p)` and `killOk pid force` is whether
`killProcess(pid, force)` succeeds. -/
structure Env where
  osFree : Nat → Bool
  occupier : Nat → Option Occupier
  killOk : Nat → Bool → Bool

/-- The errors thrown by PortManager; each constructor carries the data
interpolated into the corresponding `Error` message string. -/
inductive PMErr where
  /-- `No available ports in range ${start}-${end}` -/
  | noAvailablePorts (start stop : Nat)
  /-- `Port ${port} is occupied by ${name} (PID: ${pid}). Use killIfOccupied option to force.` -/
  | portOccupied (port : Nat) (processName : String) (pid : Nat)
  /-- `Port ${port} is occupied by ${name} (PID: ${pid}) and could not be killed` -/
  | notKillable (port : Nat) (processName : String) (pid : Nat)
  /-- `Port ${port} is still not available after killing process` -/
  | stillUnavailable (port : Nat)
  /-- `Port ${port} is not available` -/
  | notAvailable (port : Nat)
  /-- `Failed to allocate ${count} ports. Only ${found} were available.` -/
  | groupAllocationFailed (count found : Nat)
deriving Repr, DecidableEq

/-! ## allocate (PortManager.mjs lines 227–247) -/

/-- Outcome of `allocate`: the result or error, the registries written by
`saveRegistry` (in order), and the ports passed to
`checkPortAvailability` (in order). -/
structure AllocateOut where
  result : Except PMErr Nat
  saves : List (Registry Alloc)
  probed : List Nat
deriving Repr

/-- The scan loop of `allocate`: from `port` for `fuel` further
candidates, skip a candidate present in `allocations` without probing,
probe the rest, stop at the first OS-available one and record it. -/
def allocGo (env : Env) (allocs : List (Nat × Alloc)) (now : Nat) (meta : String) :
    Nat → Nat → Option (Nat × List (Nat × Alloc)) × List Nat
  | _, 0 => (none, [])
  | port, fuel+1 =>
    if (lookupA allocs port).isSome then
      allocGo env allocs now meta (port+1) fuel
    else if env.osFree port then
      (some (port, insertA allocs port ⟨now, meta, none, none⟩), [port])
    else
      let r := allocGo env allocs now meta (port+1) fuel
      (r.1, port :: r.2)

/-- `allocate(range, metadata)`: load the registry, scan
`range.start..range.end` ascending for the first port that is neither
registered nor OS-occupied, record it with `allocatedAt = now` and the
given metadata, persist once; throw `noAvailablePorts` on exhaustion. -/
def allocate (env : Env) (file : FileContent Alloc) (range : PortRange)
    (now : Nat) (meta : String) : AllocateOut :=
  let registry := loadRegistry file
  let r := allocGo env registry.allocations now meta range.start (range.stop + 1 - range.start)
  match r.1 with
  | some (port, allocs) =>
    ⟨.ok port, [{ registry with allocations := allocs }], r.2⟩
  | none => ⟨.error (.noAvailablePorts range.start range.stop), [], r.2⟩

/-! ## release / cleanup (PortManager.mjs lines 254–261, 290–295) -/

/-- `release(port)`: delete the allocation if present (persisting the
deletion), return `true` either way. -/
def release (file : FileContent Alloc) (port : Nat) :
    Bool × List (Registry Alloc) :=
  let registry := loadRegistry file
  if (lookupA registry.allocations port).isSome then
    (true, [{ registry with allocations := eraseA registry.allocations port }])
  else
    (true, [])

/-- `cleanup()`: reset `allocations` to the empty map and persist. -/
def cleanup (file : FileContent Alloc) : Bool × List (Registry Alloc) :=
  let registry := loadRegistry file
  (true, [{ registry with allocations := [] }])

/-! ## killOccupier / reserve (PortManager.mjs lines 335–425) -/

/-- Result object of `killOccupier`. -/
structure KillOut where
  killed : Bool
  pid : Option Nat
  processName : Option String
  reason : Option String
deriving Repr, DecidableEq

/-- `killOccupier(port, {force})`: detect the occupier; if none, report
`killed: false` with reason `Port not in use`; otherwise attempt the
kill and, on success, `release(port)` (which persists the deletion when
the port was registered). -/
def killOccupier (env : Env) (file : FileContent Alloc) (port : Nat)
    (force : Bool) : KillOut × List (Registry Alloc) :=
  match env.occupier port with
  | none => (⟨false, none, none, some "Port not in use"⟩, [])
  | some occ =>
    if env.killOk occ.pid force then
      let r := release file port
      (⟨true, some occ.pid, some occ.processName, none⟩, r.2)
    else
      (⟨false, some occ.pid, some occ.processName, none⟩, [])

/-- Options object of `reserve`; `metadata = none` models an absent (or
falsy) `options.metadata`, which the code replaces by `{}`. -/
structure ReserveOpts where
  killIfOccupied : Bool
  force : Bool
  metadata : Option String
deriving Repr, DecidableEq

/-- Success object of `reserve`: `{port, wasOccupied, killed?, occupier?}`. -/
structure ReserveOk where
  port : Nat
  wasOccupied : Bool
  killed : Option Bool
  occupier : Option Occupier
deriving Repr, DecidableEq

/-- `reserve(port, options)`: if the port has an occupier and
`killIfOccupied` is unset, throw `portOccupied`; with `killIfOccupied`,
kill the occupier (throwing `notKillable` on failure), wait, re-probe
(throwing `stillUnavailable` if the port is still taken), then record
the allocation and persist.  With no occupier, probe (throwing
`notAvailable` if taken), record and persist. -/
def reserve (env : Env) (file : FileContent Alloc) (port : Nat)
    (opts : ReserveOpts) (now : Nat) :
    Except PMErr ReserveOk × List (Registry Alloc) :=
  match env.occupier port with
  | some occ =>
    if opts.killIfOccupied then
      let kr := killOccupier env file port opts.force
      if kr.1.killed = false then
        (.error (.notKillable port occ.processName occ.pid), kr.2)
      else if env.osFree port = false then
        (.error (.stillUnavailable port), kr.2)
      else
        let registry := loadRegistry (applySaves file kr.2)
        let registry' := { registry with
          allocations := insertA registry.allocations port
            ⟨now, opts.metadata.getD "", none, none⟩ }
        (.ok ⟨port, true, some true, some occ⟩, kr.2 ++ [registry'])
    else
      (.error (.portOccupied port occ.processName occ.pid), [])
  | none =>
    if env.osFree port = false then
      (.error (.notAvailable port), [])
    else
      let registry := loadRegistry file
      let registry' := { registry with
        allocations := insertA registry.allocations port
          ⟨now, opts.metadata.getD "", none, none⟩ }
      (.ok ⟨port, false, none, none⟩, [registry'])

/-! ## allocateGroup / releaseGroup (PortManager.mjs lines 434–509) -/

/-- The role for index `i`: `roles[i] || port${i+1}` — an absent entry,
and also an empty string (falsy in JS), falls back to the synthesized
name. -/
def roleFor (roles : List String) (i : Nat) : String :=
  match roles.get? i with
  | some r => if r = "" then "port" ++ toString (i + 1) else r
  | none => "port" ++ toString (i + 1)

/-- The inner scan of `allocateGroup`: first port in the default range
that is neither registered nor among the ports already claimed by this
call (`portNumbers`) and is OS-available. -/
def groupScan (env : Env) (allocs : List (Nat × Alloc)) (portNumbers : List Nat) :
    Nat → Nat → Option Nat
  | _, 0 => none
  | port, fuel+1 =>
    if (lookupA allocs port).isSome || portNumbers.contains port then
      groupScan env allocs portNumbers (port+1) fuel
    else if env.osFree port then
      some port
    else
      groupScan env allocs portNumbers (port+1) fuel

/-- Mutable state of one `allocateGroup` call: the in-memory
`registry.allocations`, the `portNumbers` array and the
`allocatedPorts` role→port object. -/
structure GroupAcc where
  allocs : List (Nat × Alloc)
  portNumbers : List Nat
  allocatedPorts : List (String × Nat)
deriving Repr, DecidableEq

/-- Erase a list of ports from the in-memory allocations (the rollback
loop of `allocateGroup`). -/
def rollback (allocs : List (Nat × Alloc)) (ports : List Nat) :
    List (Nat × Alloc) :=
  ports.foldl eraseA allocs

/-- The outer loop of `allocateGroup`, at index `i` with `k` ports still
to find: scan for a port, record it under its role, and continue; on
scan failure, roll the speculative allocations back and fail carrying
the number `i` of ports found and the rolled-back in-memory state. -/
def groupLoop (env : Env) (rs rlen : Nat) (now : Nat) (meta groupId : String)
    (roles : List String) : Nat → Nat → GroupAcc → Except (Nat × GroupAcc) GroupAcc
  | _, 0, acc => .ok acc
  | i, k+1, acc =>
    match groupScan env acc.allocs acc.portNumbers rs rlen with
    | some port =>
      let role := roleFor roles i
      groupLoop env rs rlen now meta groupId roles (i+1) k
        ⟨insertA acc.allocs port ⟨now, meta, some groupId, some role⟩,
         acc.portNumbers ++ [port],
         insertS acc.allocatedPorts role port⟩
    | none => .error (i, { acc with allocs := rollback acc.allocs acc.portNumbers })

/-- Success object of `allocateGroup`: `{groupId, ports, metadata}`. -/
structure GroupOk where
  groupId : String
  ports : List (String × Nat)
  metadata : String
deriving Repr, DecidableEq

/-- `allocateGroup(count, metadata, roles)` with the fresh `groupId` and
the manager's default range passed in: run the loop over the freshly
loaded registry and persist once on full success; on failure nothing is
ever persisted. -/
def allocateGroup (env : Env) (file : FileContent Alloc) (count : Nat)
    (meta : String) (roles : List String) (groupId : String) (now : Nat)
    (range : PortRange) : Except PMErr GroupOk × List (Registry Alloc) :=
  let registry := loadRegistry file
  match groupLoop env range.start (range.stop + 1 - range.start) now meta groupId
      roles 0 count ⟨registry.allocations, [], []⟩ with
  | .ok acc =>
    (.ok ⟨groupId, acc.allocatedPorts, meta⟩,
     [{ registry with allocations := acc.allocs }])
  | .error fa => (.error (.groupAllocationFailed count fa.1), [])

/-- Invariant of the `allocateGroup` loop after `i` ports have been
found, relative to the allocations `pre` loaded at the start of the
call and the scanned range. -/
structure GroupInv (pre : List (Nat × Alloc)) (rs rlen : Nat) (roles : List String)
    (i : Nat) (acc : GroupAcc) : Prop where
  sorted : SortedKeys acc.allocs
  nodup : acc.portNumbers.Nodup
  len : acc.portNumbers.length = i
  fresh : ∀ p ∈ acc.portNumbers, lookupA pre p = none
  inRange : ∀ p ∈ acc.portNumbers, rs ≤ p ∧ p < rs + rlen
  present : ∀ p ∈ acc.portNumbers, (lookupA acc.allocs p).isSome
  rest : ∀ q, q ∉ acc.portNumbers → lookupA acc.allocs q = lookupA pre q
  rolesNodup : (acc.allocatedPorts.map Prod.fst).Nodup
  rolesSet : (acc.allocatedPorts.map Prod.fst).toFinset =
    ((List.range i).map (roleFor roles)).toFinset

/-- `releaseGroup(groupId)`: delete every allocation whose `groupId`
strictly equals the argument, persist once (even when nothing matched),
and return the count and list of freed ports in registry order. -/
def releaseGroup (file : FileContent Alloc) (groupId : String) :
    (Nat × List Nat) × List (Registry Alloc) :=
  let registry := loadRegistry file
  let released := (registry.allocations.filter
    (fun e => e.2.groupId == some groupId)).map Prod.fst
  let registry' := { registry with
    allocations := registry.allocations.filter
      (fun e => !(e.2.groupId == some groupId)) }
  ((released.length, released), [registry'])

end GosikiOS.PortManager

namespace GosikiOS.PortIndex

/-! ## src/index.js data model

The second, simpler variant keyed by owning PID, with stale-entry
eviction (`src/index.js` lines 28–97). -/

/-- An allocation record of the `src/index.js` variant:
`{allocatedAt, pid}`. -/
structure Alloc where
  allocatedAt : Nat
  pid : Nat
deriving Repr, DecidableEq

/-- Snapshot of the outside world consulted by `src/index.js`:
`getPortPid p` is the owning PID reported by the OS connection table (or
`none`), `processAlive pid` is whether `process.kill(pid, 0)` succeeds. -/
structure Env where
  getPortPid : Nat → Option Nat
  processAlive : Nat → Bool

/-- `isPortFree(port, registry)`: a system-occupied port is not free; a
registered port whose recorded process is alive is not free; a
registered port whose recorded process is gone is stale — the entry is
deleted from the (shared, in-memory) registry, the deletion is
persisted, and the port is free; an unregistered, system-free port is
free.  Returns the flag, the updated in-memory registry and the list of
`saveRegistry` writes. -/
def isPortFree (env : Env) (registry : Registry Alloc) (port : Nat) :
    Bool × Registry Alloc × List (Registry Alloc) :=
  match env.getPortPid port with
  | some _ => (false, registry, [])
  | none =>
    match lookupA registry.allocations port with
    | some managed =>
      if env.processAlive managed.pid then
        (false, registry, [])
      else
        let registry' := { registry with
          allocations := eraseA registry.allocations port }
        (true, registry', [registry'])
    | none => (true, registry, [])

end GosikiOS.PortIndex

namespace GosikiOS

/-! ## Lemmas: the association-list model -/

theorem lookupA_insertA_self {α : Type} (l : List (Nat × α)) (k : Nat) (v : α) :
    lookupA (insertA l k v) k = some v := by
  induction l with
  | nil => simp [insertA, lookupA]
  | cons e t ih =>
    obtain ⟨q, b⟩ := e
    by_cases h1 : k < q
    · simp [insertA, h1, lookupA]
    · by_cases h2 : k = q
      · simp [insertA, h1, h2, lookupA]
      · simp [insertA, h1, h2, lookupA, Ne.symm h2, ih]

theorem lookupA_insertA_ne {α : Type} (l : List (Nat × α)) (k : Nat) (v : α)
    (q : Nat) (hq : q ≠ k) : lookupA (insertA l k v) q = lookupA l q := by
  induction l with
  | nil => simp [insertA, lookupA, Ne.symm hq]
  | cons e t ih =>
    obtain ⟨p, b⟩ := e
    by_cases h1 : k < p
    · simp [insertA, h1, lookupA, Ne.symm hq]
    · by_cases h2 : k = p
      · subst h2
        simp [insertA, h1, lookupA, Ne.symm hq]
      · simp [insertA, h1, h2, lookupA, ih]

theorem lookupA_eraseA_self {α : Type} (l : List (Nat × α)) (k : Nat) :
    lookupA (eraseA l k) k = none := by
  induction l with
  | nil => simp [eraseA, lookupA]
  | cons e t ih =>
    obtain ⟨p, b⟩ := e
    by_cases h : p = k
    · simpa [eraseA, h] using ih
    · simpa [eraseA, h, lookupA] using ih

theorem lookupA_eraseA_ne {α : Type} (l : List (Nat × α)) (k : Nat)
    (q : Nat) (hq : q ≠ k) : lookupA (eraseA l k) q = lookupA l q := by
  induction l with
  | nil => simp [eraseA, lookupA]
  | cons e t ih =>
    obtain ⟨p, b⟩ := e
    by_cases h : p = k
    · subst h
      simpa [eraseA, lookupA, Ne.symm hq] using ih
    · by_cases h2 : p = q
      · subst h2
        simp [eraseA, List.filter_cons, bne_iff_ne, h, lookupA]
      · simpa [eraseA, List.filter_cons, bne_iff_ne, h, lookupA, h2] using ih

theorem mem_keysA_of_lookupA_isSome {α : Type} (l : List (Nat × α)) (k : Nat)
    (h : (lookupA l k).isSome) : k ∈ keysA l := by
  induction l with
  | nil => simp [lookupA] at h
  | cons e t ih =>
    obtain ⟨p, b⟩ := e
    by_cases hp : p = k
    · simp [keysA, hp]
    · simp [lookupA, hp] at h
      simpa [keysA] using Or.inr (by simpa [keysA] using ih h)

theorem lookupA_isSome_of_mem_keysA {α : Type} (l : List (Nat × α)) (k : Nat)
    (h : k ∈ keysA l) : (lookupA l k).isSome := by
  induction l with
  | nil => simp [keysA] at h
  | cons e t ih =>
    obtain ⟨p, b⟩ := e
    by_cases hp : p = k
    · simp [lookupA, hp]
    · simp [keysA, Ne.symm hp] at h
      simpa [lookupA, hp] using ih (by simpa [keysA] using h)

theorem lookupA_eq_none_of_not_mem {α : Type} (l : List (Nat × α)) (k : Nat)
    (h : k ∉ keysA l) : lookupA l k = none := by
  by_contra hne
  exact h (mem_keysA_of_lookupA_isSome l k (by
    cases hl : lookupA l k with
    | none => exact absurd hl hne
    | some v => simp [hl]))

theorem not_mem_keysA_of_lookupA_eq_none {α : Type} (l : List (Nat × α)) (k : Nat)
    (h : lookupA l k = none) : k ∉ keysA l := by
  intro hmem
  have := lookupA_isSome_of_mem_keysA l k hmem
  simp [h] at this

theorem eraseA_eq_self_of_not_mem {α : Type} (l : List (Nat × α)) (k : Nat)
    (h : k ∉ keysA l) : eraseA l k = l := by
  apply List.filter_eq_self.mpr
  intro e he
  have hek : e.1 ≠ k := by
    intro hek
    exact h (by
      have : e.1 ∈ keysA l := List.mem_map_of_mem Prod.fst he
      simpa [hek] using this)
  simpa [bne_iff_ne] using hek

theorem eraseA_insertA {α : Type} (l : List (Nat × α)) (k : Nat) (v : α) :
    lookupA l k = none → eraseA (insertA l k v) k = l := by
  induction l with
  | nil =>
    intro h
    simp [insertA, eraseA]
  | cons e t ih =>
    intro h
    obtain ⟨p, b⟩ := e
    have hpk : ¬p = k := by
      intro hpk
      simp [lookupA, hpk] at h
    have ht : lookupA t k = none := by simpa [lookupA, hpk] using h
    have hkt : k ∉ keysA t := not_mem_keysA_of_lookupA_eq_none t k ht
    by_cases h1 : k < p
    · simp [insertA, h1, eraseA, List.filter_cons, bne_iff_ne, hpk]
      have := eraseA_eq_self_of_not_mem t k hkt
      simpa [eraseA] using this
    · by_cases h2 : k = p
      · exact absurd h2.symm hpk
      · simp [insertA, h1, h2, eraseA, List.filter_cons, bne_iff_ne, hpk]
        have := ih ht
        simpa [eraseA] using this


theorem keysA_cons {α : Type} (p : Nat) (b : α) (t : List (Nat × α)) :
    keysA ((p, b) :: t) = p :: keysA t := rfl

theorem mem_keysA_insertA {α : Type} (l : List (Nat × α)) (k : Nat) (v : α)
    (q : Nat) (hq : q ∈ keysA (insertA l k v)) : q = k ∨ q ∈ keysA l := by
  induction l with
  | nil => simpa [insertA, keysA] using hq
  | cons e t ih =>
    obtain ⟨p, b⟩ := e
    by_cases h1 : k < p
    · simp only [insertA, if_pos h1, keysA_cons, List.mem_cons] at hq ⊢
      tauto
    · by_cases h2 : k = p
      · simp only [insertA, if_neg h1, if_pos h2, keysA_cons, List.mem_cons] at hq ⊢
        tauto
      · simp only [insertA, if_neg h1, if_neg h2, keysA_cons, List.mem_cons] at hq ⊢
        rcases hq with hq | hq
        · exact Or.inr (Or.inl hq)
        · rcases ih hq with h' | h'
          · exact Or.inl h'
          · exact Or.inr (Or.inr h')

theorem sortedKeys_insertA {α : Type} (l : List (Nat × α)) (k : Nat) (v : α)
    (h : SortedKeys l) : SortedKeys (insertA l k v) := by
  induction l with
  | nil => simp [SortedKeys, insertA, keysA]
  | cons e t ih =>
    obtain ⟨p, b⟩ := e
    rw [SortedKeys, keysA] at h
    simp only [List.map_cons, List.sorted_cons] at h
    by_cases h1 : k < p
    · rw [SortedKeys, keysA]
      simp only [insertA, if_pos h1, List.map_cons, List.sorted_cons]
      refine ⟨?_, h.1, h.2⟩
      intro q hq
      simp at hq
      rcases hq with hq | hq
      · omega
      · exact lt_trans h1 (h.1 q (by simpa [keysA] using hq))
    · by_cases h2 : k = p
      · rw [SortedKeys, keysA]
        simp only [insertA, if_neg h1, if_pos h2, List.map_cons, List.sorted_cons]
        exact ⟨fun q hq => h2 ▸ h.1 q hq, h.2⟩
      · rw [SortedKeys, keysA]
        simp only [insertA, if_neg h1, if_neg h2, List.map_cons, List.sorted_cons]
        constructor
        · intro q hq
          rcases mem_keysA_insertA t k v q (by simpa [keysA] using hq) with hq' | hq'
          · omega
          · exact h.1 q hq'
        · exact ih h.2

theorem sortedKeys_filter {α : Type} (l : List (Nat × α)) (f : Nat × α → Bool)
    (h : SortedKeys l) : SortedKeys (l.filter f) :=
  List.Pairwise.sublist ((l.filter_sublist).map Prod.fst) h

theorem sortedKeys_eraseA {α : Type} (l : List (Nat × α)) (k : Nat)
    (h : SortedKeys l) : SortedKeys (eraseA l k) :=
  sortedKeys_filter l _ h

theorem nodup_keysA_of_sorted {α : Type} (l : List (Nat × α))
    (h : SortedKeys l) : (keysA l).Nodup :=
  List.Sorted.nodup h

theorem lookupA_ext {α : Type} :
    ∀ (l l' : List (Nat × α)), SortedKeys l → SortedKeys l' →
      (∀ k, lookupA l k = lookupA l' k) → l = l' := by
  intro l
  induction l with
  | nil =>
    intro l' _ h' heq
    cases l' with
    | nil => rfl
    | cons e t =>
      obtain ⟨q, c⟩ := e
      have := heq q
      simp [lookupA] at this
  | cons e t ih =>
    intro l' hs hs' heq
    obtain ⟨p, b⟩ := e
    cases l' with
    | nil =>
      have := heq p
      simp [lookupA] at this
    | cons e' t' =>
      obtain ⟨q, c⟩ := e'
      rw [SortedKeys, keysA] at hs hs'
      simp only [List.map_cons, List.sorted_cons] at hs hs'
      have hpq : p = q := by
        rcases lt_trichotomy p q with hlt | heq' | hgt
        · exfalso
          have h1 := heq p
          have hmem : p ∉ keysA t' := by
            intro hmem
            have := hs'.1 p hmem
            omega
          have h2 : lookupA ((q, c) :: t') p = none := by
            have hqp : ¬q = p := by omega
            simp only [lookupA, if_neg hqp]
            exact lookupA_eq_none_of_not_mem t' p hmem
          rw [h2] at h1
          simp [lookupA] at h1
        · exact heq'
        · exfalso
          have h1 := heq q
          have hmem : q ∉ keysA t := by
            intro hmem
            have := hs.1 q hmem
            omega
          have h2 : lookupA ((p, b) :: t) q = none := by
            have hpq' : ¬p = q := by omega
            simp only [lookupA, if_neg hpq']
            exact lookupA_eq_none_of_not_mem t q hmem
          rw [h2] at h1
          simp [lookupA] at h1
      subst hpq
      have hbc : b = c := by
        have := heq p
        simpa [lookupA] using this
      subst hbc
      have htails : ∀ k, lookupA t k = lookupA t' k := by
        intro k
        by_cases hk : p = k
        · subst hk
          have h1 : p ∉ keysA t := by
            intro hmem
            have := hs.1 p hmem
            omega
          have h2 : p ∉ keysA t' := by
            intro hmem
            have := hs'.1 p hmem
            omega
          rw [lookupA_eq_none_of_not_mem t p h1, lookupA_eq_none_of_not_mem t' p h2]
        · have := heq k
          simpa [lookupA, hk] using this
      rw [ih t' hs.2 hs'.2 htails]

theorem lookupA_foldl_eraseA {α : Type} :
    ∀ (ports : List Nat) (l : List (Nat × α)) (q : Nat),
      lookupA (ports.foldl eraseA l) q = if q ∈ ports then none else lookupA l q := by
  intro ports
  induction ports with
  | nil => simp
  | cons p ps ih =>
    intro l q
    rw [List.foldl_cons, ih]
    by_cases h1 : q ∈ ps
    · simp [h1]
    · by_cases h2 : q = p
      · subst h2
        simp [h1, lookupA_eraseA_self]
      · simp [h1, h2, lookupA_eraseA_ne l p q h2]

theorem sortedKeys_foldl_eraseA {α : Type} :
    ∀ (ports : List Nat) (l : List (Nat × α)), SortedKeys l →
      SortedKeys (ports.foldl eraseA l) := by
  intro ports
  induction ports with
  | nil => intro l h; simpa using h
  | cons p ps ih =>
    intro l h
    rw [List.foldl_cons]
    exact ih _ (sortedKeys_eraseA l p h)

theorem keysS_insertS {α : Type} (l : List (String × α)) (k : String) (v : α) :
    (insertS l k v).map Prod.fst =
      if k ∈ l.map Prod.fst then l.map Prod.fst else l.map Prod.fst ++ [k] := by
  induction l with
  | nil => simp [insertS]
  | cons e t ih =>
    obtain ⟨q, b⟩ := e
    by_cases h : q = k
    · simp [insertS, h]
    · simp only [insertS, if_neg h, List.map_cons, ih, List.mem_cons, Ne.symm h,
        false_or]
      by_cases h2 : k ∈ t.map Prod.fst <;> simp [h2]

theorem nodup_keysS_insertS {α : Type} (l : List (String × α)) (k : String) (v : α)
    (h : (l.map Prod.fst).Nodup) : ((insertS l k v).map Prod.fst).Nodup := by
  rw [keysS_insertS]
  split_ifs with hk
  · exact h
  · rw [List.nodup_append]
    refine ⟨h, List.nodup_singleton k, ?_⟩
    intro a ha hb
    rw [List.mem_singleton] at hb
    subst hb
    exact hk ha

theorem toFinset_keysS_insertS {α : Type} (l : List (String × α)) (k : String) (v : α) :
    ((insertS l k v).map Prod.fst).toFinset = insert k (l.map Prod.fst).toFinset := by
  rw [keysS_insertS]
  split_ifs with hk
  · exact (Finset.insert_eq_self.mpr (by simpa using hk)).symm
  · ext x
    simp [List.mem_toFinset, or_comm]


theorem lookupA_filter {α : Type} (l : List (Nat × α)) (f : Nat × α → Bool) (p : Nat) :
    (keysA l).Nodup →
    lookupA (l.filter f) p = (match lookupA l p with
      | some a => if f (p, a) then some a else none
      | none => none) := by
  induction l with
  | nil =>
    intro _
    simp [lookupA]
  | cons e t ih =>
    intro hnd
    obtain ⟨q, b⟩ := e
    rw [keysA_cons, List.nodup_cons] at hnd
    by_cases hqp : q = p
    · subst hqp
      by_cases hf : f (q, b)
      · simp [List.filter_cons, hf, lookupA]
      · simp only [List.filter_cons, hf, Bool.false_eq_true, if_neg, ite_false, lookupA]
        have hsub : keysA (t.filter f) ⊆ keysA t :=
          ((t.filter_sublist).map Prod.fst).subset
        have : q ∉ keysA (t.filter f) := fun hmem => hnd.1 (hsub hmem)
        simp [lookupA_eq_none_of_not_mem _ _ this, lookupA, hf]
    · by_cases hf : f (q, b)
      · simp only [List.filter_cons, hf, if_pos, lookupA, hqp, ite_false]
        simpa [lookupA, hqp] using ih hnd.2
      · simp only [List.filter_cons, hf, Bool.false_eq_true, ite_false, lookupA, hqp]
        simpa [lookupA, hqp] using ih hnd.2

theorem toFinset_card_lt_of_not_nodup {α : Type} [DecidableEq α] (l : List α)
    (h : ¬ l.Nodup) : l.toFinset.card < l.length := by
  rw [List.card_toFinset]
  have hsub := l.dedup_sublist
  rcases lt_or_eq_of_le hsub.length_le with hlt | heq
  · exact hlt
  · exfalso
    exact h (hsub.eq_of_length heq ▸ l.nodup_dedup)

theorem toFinset_card_of_nodup {α : Type} [DecidableEq α] (l : List α)
    (h : l.Nodup) : l.toFinset.card = l.length := by
  rw [List.card_toFinset, List.dedup_eq_self.mpr h]

theorem validKeys_insertA {α : Type} (l : List (Nat × α)) (k : Nat) (v : α)
    (hl : ValidKeys l) (h1 : 1 ≤ k) (h2 : k ≤ 65535) : ValidKeys (insertA l k v) := by
  intro p hp
  rcases mem_keysA_insertA l k v p hp with h | h
  · subst h
    exact ⟨h1, h2⟩
  · exact hl p h

theorem validKeys_filter {α : Type} (l : List (Nat × α)) (f : Nat × α → Bool)
    (hl : ValidKeys l) : ValidKeys (l.filter f) := by
  intro p hp
  exact hl p (((l.filter_sublist).map Prod.fst).subset hp)

theorem validKeys_eraseA {α : Type} (l : List (Nat × α)) (k : Nat)
    (hl : ValidKeys l) : ValidKeys (eraseA l k) :=
  validKeys_filter l _ hl

theorem applySaves_singleton {α : Type} (file : FileContent α) (r : Registry α) :
    applySaves file [r] = .valid r := rfl

theorem loadRegistry_valid {α : Type} (r : Registry α) : loadRegistry (.valid r) = r := rfl

theorem validKeys_of_lookup {α : Type} (l : List (Nat × α))
    (h : ∀ k, (lookupA l k).isSome → 1 ≤ k ∧ k ≤ 65535) : ValidKeys l := by
  intro p hp
  exact h p (lookupA_isSome_of_mem_keysA l p hp)

namespace PortManager

/-! ## Lemmas: the allocate scan -/

theorem allocGo_ok (env : Env) (allocs : List (Nat × Alloc)) (now : Nat) (meta : String) :
    ∀ (fuel start p : Nat) (allocs' : List (Nat × Alloc)),
      (allocGo env allocs now meta start fuel).1 = some (p, allocs') →
      start ≤ p ∧ p < start + fuel ∧ lookupA allocs p = none ∧ env.osFree p = true ∧
      allocs' = insertA allocs p ⟨now, meta, none, none⟩ ∧
      (∀ q, start ≤ q → q < p → (lookupA allocs q).isSome ∨ env.osFree q = false) := by
  intro fuel
  induction fuel with
  | zero =>
    intro start p allocs' h
    simp [allocGo] at h
  | succ n ih =>
    intro start p allocs' h
    rw [allocGo] at h
    by_cases h1 : (lookupA allocs start).isSome
    · rw [if_pos h1] at h
      obtain ⟨hle, hlt, hnone, hfree, heqa, hfirst⟩ := ih (start+1) p allocs' h
      refine ⟨by omega, by omega, hnone, hfree, heqa, ?_⟩
      intro q hq1 hq2
      by_cases hq : q = start
      · subst hq
        exact Or.inl h1
      · exact hfirst q (by omega) hq2
    · rw [if_neg h1] at h
      by_cases h2 : env.osFree start
      · rw [if_pos h2] at h
        simp only [Option.some.injEq, Prod.mk.injEq] at h
        obtain ⟨hp, ha⟩ := h
        subst hp
        refine ⟨le_refl _, by omega, ?_, h2, ha.symm, ?_⟩
        · cases hl : lookupA allocs start with
          | none => rfl
          | some v => exact absurd (by simp [hl]) h1
        · intro q hq1 hq2
          omega
      · rw [if_neg h2] at h
        simp only at h
        obtain ⟨hle, hlt, hnone, hfree, heqa, hfirst⟩ := ih (start+1) p allocs' h
        refine ⟨by omega, by omega, hnone, hfree, heqa, ?_⟩
        intro q hq1 hq2
        by_cases hq : q = start
        · subst hq
          exact Or.inr (by simpa using h2)
        · exact hfirst q (by omega) hq2

theorem allocGo_probed_ok (env : Env) (allocs : List (Nat × Alloc)) (now : Nat) (meta : String) :
    ∀ (fuel start p : Nat) (allocs' : List (Nat × Alloc)),
      (allocGo env allocs now meta start fuel).1 = some (p, allocs') →
      (allocGo env allocs now meta start fuel).2 =
        (List.range' start (p + 1 - start)).filter (fun q => (lookupA allocs q).isNone) := by
  intro fuel
  induction fuel with
  | zero =>
    intro start p allocs' h
    simp [allocGo] at h
  | succ n ih =>
    intro start p allocs' h
    have hspec := allocGo_ok env allocs now meta (n+1) start p allocs' h
    rw [allocGo] at h ⊢
    by_cases h1 : (lookupA allocs start).isSome
    · rw [if_pos h1] at h ⊢
      have hspec' := allocGo_ok env allocs now meta n (start+1) p allocs' h
      have hstep : p + 1 - start = (p + 1 - (start + 1)) + 1 := by omega
      rw [ih (start+1) p allocs' h, hstep, List.range'_succ, List.filter_cons]
      have : ((lookupA allocs start).isNone : Bool) = false := by
        cases hl : lookupA allocs start with
        | none =>
          rw [hl] at h1
          simp at h1
        | some v => rfl
      rw [this]
      simp
    · rw [if_neg h1] at h ⊢
      have h1' : lookupA allocs start = none := by
        cases hl : lookupA allocs start with
        | none => rfl
        | some v => exact absurd (by simp [hl]) h1
      by_cases h2 : env.osFree start
      · rw [if_pos h2] at h ⊢
        simp only [Option.some.injEq, Prod.mk.injEq] at h
        obtain ⟨hp, ha⟩ := h
        subst hp
        have : start + 1 - start = 1 := by omega
        rw [this]
        simp [List.range', List.filter_cons, h1']
      · rw [if_neg h2] at h ⊢
        simp only at h
        have hspec' := allocGo_ok env allocs now meta n (start+1) p allocs' h
        have hstep : p + 1 - start = (p + 1 - (start + 1)) + 1 := by omega
        rw [hstep, List.range'_succ, List.filter_cons]
        simp only [ih (start+1) p allocs' h, h1', Option.isNone_none]
        simp

/-! ## Lemmas: the group-allocation loop -/

theorem groupScan_some (env : Env) (allocs : List (Nat × Alloc)) (pn : List Nat) :
    ∀ (fuel start p : Nat), groupScan env allocs pn start fuel = some p →
      start ≤ p ∧ p < start + fuel ∧ lookupA allocs p = none ∧ p ∉ pn ∧
      env.osFree p = true := by
  intro fuel
  induction fuel with
  | zero =>
    intro start p h
    simp [groupScan] at h
  | succ n ih =>
    intro start p h
    rw [groupScan] at h
    by_cases h1 : ((lookupA allocs start).isSome || pn.contains start : Bool)
    · rw [if_pos h1] at h
      obtain ⟨a, b, c, d, e⟩ := ih (start+1) p h
      exact ⟨by omega, by omega, c, d, e⟩
    · rw [if_neg h1] at h
      have h1' : lookupA allocs start = none ∧ start ∉ pn := by
        rw [Bool.or_eq_true] at h1
        push_neg at h1
        constructor
        · cases hl : lookupA allocs start with
          | none => rfl
          | some v =>
            exfalso
            exact h1.1 (by simp [hl])
        · intro hmem
          exact h1.2 (by simpa using hmem)
      by_cases h2 : env.osFree start
      · rw [if_pos h2] at h
        have hps : start = p := by simpa using h
        subst hps
        exact ⟨le_refl _, by omega, h1'.1, h1'.2, h2⟩
      · rw [if_neg h2] at h
        obtain ⟨a, b, c, d, e⟩ := ih (start+1) p h
        exact ⟨by omega, by omega, c, d, e⟩

theorem roleImage_succ (roles : List String) (i : Nat) :
    ((List.range (i+1)).map (roleFor roles)).toFinset =
      insert (roleFor roles i) ((List.range i).map (roleFor roles)).toFinset := by
  rw [List.range_succ, List.map_append, List.toFinset_append]
  ext a
  simp [or_comm]

theorem groupInv_start (pre : List (Nat × Alloc)) (rs rlen : Nat)
    (roles : List String) (hpre : SortedKeys pre) :
    GroupInv pre rs rlen roles 0 ⟨pre, [], []⟩ where
  sorted := hpre
  nodup := List.nodup_nil
  len := rfl
  fresh := by
    intro p hp
    simp at hp
  inRange := by
    intro p hp
    simp at hp
  present := by
    intro p hp
    simp at hp
  rest := by
    intro q _
    rfl
  rolesNodup := List.nodup_nil
  rolesSet := by simp

theorem groupInv_step (env : Env) (rs rlen now : Nat) (meta gid : String)
    (roles : List String) (pre : List (Nat × Alloc)) (i : Nat) (acc : GroupAcc)
    (port : Nat) (hinv : GroupInv pre rs rlen roles i acc)
    (hscan : groupScan env acc.allocs acc.portNumbers rs rlen = some port) :
    GroupInv pre rs rlen roles (i+1)
      ⟨insertA acc.allocs port ⟨now, meta, some gid, some (roleFor roles i)⟩,
       acc.portNumbers ++ [port],
       insertS acc.allocatedPorts (roleFor roles i) port⟩ := by
  obtain ⟨hle, hlt, hnone, hnotmem, hfree⟩ :=
    groupScan_some env acc.allocs acc.portNumbers rlen rs port hscan
  constructor
  · exact sortedKeys_insertA _ _ _ hinv.sorted
  · rw [List.nodup_append]
    refine ⟨hinv.nodup, List.nodup_singleton _, ?_⟩
    intro a ha hb
    rw [List.mem_singleton] at hb
    subst hb
    exact hnotmem ha
  · simp [hinv.len]
  · intro p hp
    rcases List.mem_append.mp hp with hp | hp
    · exact hinv.fresh p hp
    · rw [List.mem_singleton] at hp
      subst hp
      rw [← hinv.rest p hnotmem]
      exact hnone
  · intro p hp
    rcases List.mem_append.mp hp with hp | hp
    · exact hinv.inRange p hp
    · rw [List.mem_singleton] at hp
      subst hp
      exact ⟨hle, hlt⟩
  · intro p hp
    rcases List.mem_append.mp hp with hp' | hp'
    · have hne : p ≠ port := by
        intro he
        apply hnotmem
        rw [← he]
        exact hp'
      rw [lookupA_insertA_ne _ _ _ _ hne]
      exact hinv.present p hp'
    · rw [List.mem_singleton] at hp'
      rw [hp', lookupA_insertA_self]
      rfl
  · intro q hq
    rw [List.mem_append] at hq
    push_neg at hq
    have hne : q ≠ port := by
      intro he
      exact hq.2 (List.mem_singleton.mpr he)
    rw [lookupA_insertA_ne _ _ _ _ hne]
    exact hinv.rest q hq.1
  · exact nodup_keysS_insertS _ _ _ hinv.rolesNodup
  · rw [toFinset_keysS_insertS, hinv.rolesSet, roleImage_succ]

theorem groupLoop_ok (env : Env) (rs rlen now : Nat) (meta gid : String)
    (roles : List String) (pre : List (Nat × Alloc)) :
    ∀ (k i : Nat) (acc acc' : GroupAcc),
      GroupInv pre rs rlen roles i acc →
      groupLoop env rs rlen now meta gid roles i k acc = .ok acc' →
      GroupInv pre rs rlen roles (i + k) acc' := by
  intro k
  induction k with
  | zero =>
    intro i acc acc' hinv h
    rw [groupLoop] at h
    injection h with h
    subst h
    simpa using hinv
  | succ n ih =>
    intro i acc acc' hinv h
    rw [groupLoop] at h
    cases hscan : groupScan env acc.allocs acc.portNumbers rs rlen with
    | none =>
      rw [hscan] at h
      cases h
    | some port =>
      rw [hscan] at h
      have hinv' := groupInv_step env rs rlen now meta gid roles pre i acc port hinv hscan
      have hrec := ih (i+1) _ acc' hinv' h
      have harith : (i+1) + n = i + (n+1) := by omega
      rw [harith] at hrec
      exact hrec

theorem groupLoop_error (env : Env) (rs rlen now : Nat) (meta gid : String)
    (roles : List String) (pre : List (Nat × Alloc)) :
    ∀ (k i : Nat) (acc : GroupAcc) (j : Nat) (accR : GroupAcc),
      GroupInv pre rs rlen roles i acc →
      groupLoop env rs rlen now meta gid roles i k acc = .error (j, accR) →
      i ≤ j ∧ j < i + k ∧
      ∃ acc', GroupInv pre rs rlen roles j acc' ∧
        accR = { acc' with allocs := rollback acc'.allocs acc'.portNumbers } := by
  intro k
  induction k with
  | zero =>
    intro i acc j accR hinv h
    rw [groupLoop] at h
    cases h
  | succ n ih =>
    intro i acc j accR hinv h
    rw [groupLoop] at h
    cases hscan : groupScan env acc.allocs acc.portNumbers rs rlen with
    | none =>
      rw [hscan] at h
      injection h with h
      injection h with h1 h2
      subst h1
      subst h2
      exact ⟨le_refl _, by omega, acc, hinv, rfl⟩
    | some port =>
      rw [hscan] at h
      have hinv' := groupInv_step env rs rlen now meta gid roles pre i acc port hinv hscan
      obtain ⟨hj1, hj2, acc', hinv'', heqr⟩ := ih (i+1) _ j accR hinv' h
      exact ⟨by omega, by omega, acc', hinv'', heqr⟩

theorem groupInv_rollback (pre : List (Nat × Alloc)) (rs rlen : Nat)
    (roles : List String) (j : Nat) (acc : GroupAcc)
    (hpre : SortedKeys pre) (hinv : GroupInv pre rs rlen roles j acc) :
    rollback acc.allocs acc.portNumbers = pre := by
  apply lookupA_ext _ _ (sortedKeys_foldl_eraseA _ _ hinv.sorted) hpre
  intro q
  rw [lookupA_foldl_eraseA]
  by_cases hq : q ∈ acc.portNumbers
  · rw [if_pos hq, hinv.fresh q hq]
  · rw [if_neg hq, hinv.rest q hq]

/-! ## Lemmas: operation-level specifications -/

theorem allocate_ok_spec (env : Env) (file : FileContent Alloc) (range : PortRange)
    (now : Nat) (meta : String) (p : Nat)
    (h : (allocate env file range now meta).result = .ok p) :
    range.start ≤ p ∧ p ≤ range.stop ∧
    lookupA (loadRegistry file).allocations p = none ∧ env.osFree p = true ∧
    (∀ q, range.start ≤ q → q < p →
      (lookupA (loadRegistry file).allocations q).isSome ∨ env.osFree q = false) ∧
    (allocate env file range now meta).saves =
      [{ loadRegistry file with
         allocations := insertA (loadRegistry file).allocations p ⟨now, meta, none, none⟩ }] ∧
    (allocate env file range now meta).probed =
      (List.range' range.start (p + 1 - range.start)).filter
        (fun q => (lookupA (loadRegistry file).allocations q).isNone) := by
  cases hr : (allocGo env (loadRegistry file).allocations now meta range.start
      (range.stop + 1 - range.start)).1 with
  | none =>
    exfalso
    simp only [allocate] at h
    rw [hr] at h
    simp at h
  | some pa =>
    obtain ⟨q, allocs'⟩ := pa
    have hqp : q = p := by
      simp only [allocate] at h
      rw [hr] at h
      simpa using h
    subst hqp
    obtain ⟨h1, h2, h3, h4, h5, h6⟩ :=
      allocGo_ok env (loadRegistry file).allocations now meta
        (range.stop + 1 - range.start) range.start q allocs' hr
    refine ⟨h1, by omega, h3, h4, h6, ?_, ?_⟩
    · simp only [allocate]
      rw [hr, h5]
    · simp only [allocate]
      rw [hr]
      exact allocGo_probed_ok env (loadRegistry file).allocations now meta
        (range.stop + 1 - range.start) range.start q allocs' hr

theorem allocateGroup_ok_spec (env : Env) (file : FileContent Alloc) (count : Nat)
    (meta : String) (roles : List String) (gid : String) (now : Nat)
    (range : PortRange) (res : GroupOk) (saves : List (Registry Alloc))
    (hwf : SortedKeys (loadRegistry file).allocations)
    (h : allocateGroup env file count meta roles gid now range = (.ok res, saves)) :
    ∃ acc : GroupAcc,
      GroupInv (loadRegistry file).allocations range.start
        (range.stop + 1 - range.start) roles count acc ∧
      res = ⟨gid, acc.allocatedPorts, meta⟩ ∧
      saves = [{ loadRegistry file with allocations := acc.allocs }] := by
  cases hg : groupLoop env range.start (range.stop + 1 - range.start) now meta gid roles
      0 count ⟨(loadRegistry file).allocations, [], []⟩ with
  | ok acc =>
    have hinv := groupLoop_ok env range.start (range.stop + 1 - range.start) now meta gid
      roles (loadRegistry file).allocations count 0 _ acc
      (groupInv_start _ _ _ _ hwf) hg
    rw [Nat.zero_add] at hinv
    simp only [allocateGroup] at h
    rw [hg] at h
    simp only [Prod.mk.injEq, Except.ok.injEq] at h
    exact ⟨acc, hinv, h.1.symm, h.2.symm⟩
  | error fa =>
    exfalso
    simp only [allocateGroup] at h
    rw [hg] at h
    simp at h

theorem allocateGroup_error_spec (env : Env) (file : FileContent Alloc) (count : Nat)
    (meta : String) (roles : List String) (gid : String) (now : Nat)
    (range : PortRange) (e : PMErr) (saves : List (Registry Alloc))
    (hwf : SortedKeys (loadRegistry file).allocations)
    (h : allocateGroup env file count meta roles gid now range = (.error e, saves)) :
    saves = [] ∧
    ∃ found accR, found < count ∧ e = .groupAllocationFailed count found ∧
      groupLoop env range.start (range.stop + 1 - range.start) now meta gid roles
        0 count ⟨(loadRegistry file).allocations, [], []⟩ = .error (found, accR) ∧
      accR.allocs = (loadRegistry file).allocations := by
  cases hg : groupLoop env range.start (range.stop + 1 - range.start) now meta gid roles
      0 count ⟨(loadRegistry file).allocations, [], []⟩ with
  | ok acc =>
    exfalso
    simp only [allocateGroup] at h
    rw [hg] at h
    simp at h
  | error fa =>
    obtain ⟨j, accR⟩ := fa
    simp only [allocateGroup] at h
    rw [hg] at h
    simp only [Prod.mk.injEq, Except.error.injEq] at h
    obtain ⟨he, hs⟩ := h
    obtain ⟨hj0, hjlt, acc', hinv', heqr⟩ :=
      groupLoop_error env range.start (range.stop + 1 - range.start) now meta gid roles
        (loadRegistry file).allocations count 0 _ j accR
        (groupInv_start _ _ _ _ hwf) hg
    refine ⟨hs.symm, j, accR, by omega, he.symm, rfl, ?_⟩
    rw [heqr]
    exact groupInv_rollback _ _ _ _ _ _ hwf hinv'

/-! ## Claim theorems -/

/-- C2: `allocate(range, metadata)` iterates candidates from `range.start`
to `range.end` inclusive in ascending order, skips registered candidates
without an OS probe, probes the rest, and returns the first candidate
that is both unregistered and OS-available, inserting a record with
`allocatedAt = now` and the given metadata and persisting once; in
particular, with an empty registry and range `{5000,5002}` where 5000 is
externally occupied and 5001/5002 free, it returns 5001 and the registry
afterwards contains exactly the key 5001. -/
theorem C2_allocate_scan :
    (∀ (env : Env) (file : FileContent Alloc) (range : PortRange) (now : Nat)
        (meta : String) (p : Nat),
      (allocate env file range now meta).result = .ok p →
      range.start ≤ p ∧ p ≤ range.stop ∧
      lookupA (loadRegistry file).allocations p = none ∧ env.osFree p = true ∧
      (∀ q, range.start ≤ q → q < p →
        (lookupA (loadRegistry file).allocations q).isSome ∨ env.osFree q = false) ∧
      (allocate env file range now meta).saves =
        [{ loadRegistry file with
           allocations := insertA (loadRegistry file).allocations p ⟨now, meta, none, none⟩ }] ∧
      (allocate env file range now meta).probed =
        (List.range' range.start (p + 1 - range.start)).filter
          (fun q => (lookupA (loadRegistry file).allocations q).isNone)) ∧
    (∀ (now : Nat) (meta : String),
      allocate ⟨fun p => decide (p ≠ 5000), fun _ => none, fun _ _ => true⟩
          (.valid emptyRegistry) ⟨5000, 5002⟩ now meta =
        ⟨.ok 5001, [⟨"1.0.0", [(5001, ⟨now, meta, none, none⟩)]⟩], [5000, 5001]⟩) := by
  constructor
  · intro env file range now meta p h
    exact allocate_ok_spec env file range now meta p h
  · intro now meta
    rfl

/-- Witness for C2 at a concrete input: the scan hypothesis is
discharged by evaluation. -/
theorem C2_allocate_scan_witness :
    (PortRange.mk 5000 5002).start ≤ 5001 ∧ 5001 ≤ (PortRange.mk 5000 5002).stop :=
  ⟨(C2_allocate_scan.1 ⟨fun p => decide (p ≠ 5000), fun _ => none, fun _ _ => true⟩
      (.valid emptyRegistry) ⟨5000, 5002⟩ 0 "m" 5001 rfl).1,
   (C2_allocate_scan.1 ⟨fun p => decide (p ≠ 5000), fun _ => none, fun _ _ => true⟩
      (.valid emptyRegistry) ⟨5000, 5002⟩ 0 "m" 5001 rfl).2.1⟩

/-- C4: `loadRegistry` is total: an absent or unparsable file yields the
fresh registry `{version: "1.0.0", allocations: {}}`, and every
operation that begins by loading the registry behaves on an absent or
corrupt file exactly as on an empty registry. -/
theorem C4_loadRegistry_lenient :
    (∀ α : Type, loadRegistry (α := α) .absent = ⟨"1.0.0", []⟩) ∧
    (∀ α : Type, loadRegistry (α := α) .corrupt = ⟨"1.0.0", []⟩) ∧
    (∀ (α : Type) (reg : Registry α), loadRegistry (.valid reg) = reg) ∧
    (∀ env range now meta,
      allocate env .absent range now meta = allocate env (.valid emptyRegistry) range now meta ∧
      allocate env .corrupt range now meta = allocate env (.valid emptyRegistry) range now meta) ∧
    (∀ port,
      release .absent port = release (.valid emptyRegistry) port ∧
      release .corrupt port = release (.valid emptyRegistry) port) ∧
    (cleanup .absent = cleanup (.valid emptyRegistry) ∧
      cleanup .corrupt = cleanup (.valid emptyRegistry)) ∧
    (∀ env count meta roles gid now range,
      allocateGroup env .absent count meta roles gid now range =
        allocateGroup env (.valid emptyRegistry) count meta roles gid now range ∧
      allocateGroup env .corrupt count meta roles gid now range =
        allocateGroup env (.valid emptyRegistry) count meta roles gid now range) ∧
    (∀ gid,
      releaseGroup .absent gid = releaseGroup (.valid emptyRegistry) gid ∧
      releaseGroup .corrupt gid = releaseGroup (.valid emptyRegistry) gid) :=
  ⟨fun _ => rfl, fun _ => rfl, fun _ _ => rfl,
   fun _ _ _ _ => ⟨rfl, rfl⟩, fun _ => ⟨rfl, rfl⟩, ⟨rfl, rfl⟩,
   fun _ _ _ _ _ _ _ => ⟨rfl, rfl⟩, fun _ => ⟨rfl, rfl⟩⟩

/-- C5: when the port has an OS occupier and `killIfOccupied` is false,
`reserve` fails with `portOccupied` naming the occupier\'s process name
and PID, writes nothing, and leaves the registry file unchanged. -/
theorem C5_reserve_occupied_fails (env : Env) (file : FileContent Alloc) (port : Nat)
    (opts : ReserveOpts) (now : Nat) (occ : Occupier)
    (hocc : env.occupier port = some occ) (hkill : opts.killIfOccupied = false) :
    reserve env file port opts now =
      (.error (.portOccupied port occ.processName occ.pid), []) ∧
    applySaves file (reserve env file port opts now).2 = file := by
  have h : reserve env file port opts now =
      (.error (.portOccupied port occ.processName occ.pid), []) := by
    rw [reserve, hocc]
    simp [hkill]
  refine ⟨h, ?_⟩
  rw [h]
  rfl

/-- Witness for C5 at a concrete input. -/
theorem C5_reserve_occupied_fails_witness :
    reserve ⟨fun _ => false, fun _ => some ⟨42, "node"⟩, fun _ _ => false⟩
        (.valid emptyRegistry) 3000 ⟨false, false, none⟩ 0 =
      (.error (.portOccupied 3000 "node" 42), []) ∧
    applySaves (FileContent.valid (emptyRegistry (α := Alloc)))
      (reserve ⟨fun _ => false, fun _ => some ⟨42, "node"⟩, fun _ _ => false⟩
        (.valid emptyRegistry) 3000 ⟨false, false, none⟩ 0).2 = .valid emptyRegistry :=
  C5_reserve_occupied_fails _ _ 3000 _ 0 ⟨42, "node"⟩ rfl rfl

/-- C6: a successful `allocate` returning `p`, immediately followed by
`release(p)`, restores the allocations map to the one loaded before the
`allocate` call. -/
theorem C6_allocate_release_roundtrip (env : Env) (file : FileContent Alloc)
    (range : PortRange) (now : Nat) (meta : String) (p : Nat)
    (hok : (allocate env file range now meta).result = .ok p) :
    (loadRegistry (applySaves (applySaves file (allocate env file range now meta).saves)
        (release (applySaves file (allocate env file range now meta).saves) p).2)).allocations =
      (loadRegistry file).allocations := by
  obtain ⟨_, _, hnone, _, _, hsaves, _⟩ := allocate_ok_spec env file range now meta p hok
  rw [hsaves, applySaves_singleton]
  rw [release]
  simp only [loadRegistry]
  rw [lookupA_insertA_self]
  simp only [Option.isSome_some, if_pos]
  rw [applySaves_singleton]
  simp only [loadRegistry]
  exact eraseA_insertA _ _ _ hnone

/-- Witness for C6 at a concrete input. -/
theorem C6_allocate_release_roundtrip_witness :
    (loadRegistry (applySaves
        (applySaves (FileContent.valid (emptyRegistry (α := Alloc)))
          (allocate ⟨fun _ => true, fun _ => none, fun _ _ => true⟩
            (.valid emptyRegistry) ⟨3000, 3000⟩ 0 "m").saves)
        (release (applySaves (FileContent.valid (emptyRegistry (α := Alloc)))
            (allocate ⟨fun _ => true, fun _ => none, fun _ _ => true⟩
              (.valid emptyRegistry) ⟨3000, 3000⟩ 0 "m").saves) 3000).2)).allocations =
      (loadRegistry (FileContent.valid (emptyRegistry (α := Alloc)))).allocations :=
  C6_allocate_release_roundtrip ⟨fun _ => true, fun _ => none, fun _ _ => true⟩
    (.valid emptyRegistry) ⟨3000, 3000⟩ 0 "m" 3000 rfl

/-- C9: on the `reserve` kill path, when the kill succeeds but the port
is still unavailable after the grace delay, the thrown
`stillUnavailable` error is preceded by a persisted registry write: the
inner `killOccupier` already released any pre-existing allocation for
the port, so the persisted state on error differs from the pre-call
state whenever the port was registered. -/
theorem C9_reserve_kill_error_not_atomic (env : Env) (file : FileContent Alloc)
    (port : Nat) (opts : ReserveOpts) (now : Nat) (occ : Occupier)
    (hocc : env.occupier port = some occ)
    (hkill : opts.killIfOccupied = true)
    (hkok : env.killOk occ.pid opts.force = true)
    (hbusy : env.osFree port = false)
    (hreg : (lookupA (loadRegistry file).allocations port).isSome) :
    (reserve env file port opts now).1 = .error (.stillUnavailable port) ∧
    (reserve env file port opts now).2 =
      [{ loadRegistry file with
         allocations := eraseA (loadRegistry file).allocations port }] ∧
    (loadRegistry (applySaves file (reserve env file port opts now).2)).allocations ≠
      (loadRegistry file).allocations := by
  have hrel : release file port =
      (true, [{ loadRegistry file with
                allocations := eraseA (loadRegistry file).allocations port }]) := by
    rw [release]
    simp [hreg]
  have hko : killOccupier env file port opts.force =
      (⟨true, some occ.pid, some occ.processName, none⟩,
       [{ loadRegistry file with
          allocations := eraseA (loadRegistry file).allocations port }]) := by
    rw [killOccupier, hocc]
    simp [hkok, hrel]
  have hres : reserve env file port opts now =
      (.error (.stillUnavailable port),
       [{ loadRegistry file with
          allocations := eraseA (loadRegistry file).allocations port }]) := by
    rw [reserve, hocc]
    simp [hkill, hko, hbusy]
  refine ⟨by rw [hres], by rw [hres], ?_⟩
  rw [hres, applySaves_singleton, loadRegistry_valid]
  show eraseA (loadRegistry file).allocations port ≠ (loadRegistry file).allocations
  intro hcontra
  have hself := lookupA_eraseA_self (loadRegistry file).allocations port
  rw [hcontra] at hself
  rw [hself] at hreg
  simp at hreg

/-- Witness for C9 at a concrete input: port 3000 is registered, has an
occupier that can be killed, and remains OS-unavailable afterwards. -/
theorem C9_reserve_kill_error_not_atomic_witness :
    (reserve ⟨fun _ => false, fun _ => some ⟨42, "node"⟩, fun _ _ => true⟩
        (.valid ⟨"1.0.0", [(3000, ⟨0, "m", none, none⟩)]⟩) 3000
        ⟨true, false, none⟩ 7).1 = .error (.stillUnavailable 3000) ∧
    (reserve ⟨fun _ => false, fun _ => some ⟨42, "node"⟩, fun _ _ => true⟩
        (.valid ⟨"1.0.0", [(3000, ⟨0, "m", none, none⟩)]⟩) 3000
        ⟨true, false, none⟩ 7).2 =
      [{ loadRegistry (FileContent.valid
            (⟨"1.0.0", [(3000, ⟨0, "m", none, none⟩)]⟩ : Registry Alloc)) with
         allocations := eraseA (loadRegistry (FileContent.valid
            (⟨"1.0.0", [(3000, ⟨0, "m", none, none⟩)]⟩ : Registry Alloc))).allocations 3000 }] ∧
    (loadRegistry (applySaves (FileContent.valid
        (⟨"1.0.0", [(3000, ⟨0, "m", none, none⟩)]⟩ : Registry Alloc))
        (reserve ⟨fun _ => false, fun _ => some ⟨42, "node"⟩, fun _ _ => true⟩
          (.valid ⟨"1.0.0", [(3000, ⟨0, "m", none, none⟩)]⟩) 3000
          ⟨true, false, none⟩ 7).2)).allocations ≠
      (loadRegistry (FileContent.valid
        (⟨"1.0.0", [(3000, ⟨0, "m", none, none⟩)]⟩ : Registry Alloc))).allocations :=
  C9_reserve_kill_error_not_atomic
    ⟨fun _ => false, fun _ => some ⟨42, "node"⟩, fun _ _ => true⟩
    (.valid ⟨"1.0.0", [(3000, ⟨0, "m", none, none⟩)]⟩) 3000
    ⟨true, false, none⟩ 7 ⟨42, "node"⟩ rfl rfl rfl rfl rfl

/-- C7: `releaseGroup(groupId)` removes exactly the allocations whose
`groupId` field matches, persists once, and returns the count and list
of freed ports; it is idempotent: a second call with the same (or an
unknown) group id returns `released: 0` and leaves the allocations map
unchanged. -/
theorem C7_releaseGroup_exact_and_idempotent (file : FileContent Alloc) (gid : String)
    (hwf : SortedKeys (loadRegistry file).allocations) :
    (releaseGroup file gid).2 =
      [{ loadRegistry file with
         allocations :=
           (loadRegistry file).allocations.filter (fun e => !(e.2.groupId == some gid)) }] ∧
    (releaseGroup file gid).1.1 = (releaseGroup file gid).1.2.length ∧
    (releaseGroup file gid).1.2 =
      ((loadRegistry file).allocations.filter (fun e => e.2.groupId == some gid)).map Prod.fst ∧
    (∀ p, lookupA
        ((loadRegistry file).allocations.filter (fun e => !(e.2.groupId == some gid))) p =
      (match lookupA (loadRegistry file).allocations p with
        | some a => if a.groupId = some gid then none else some a
        | none => none)) ∧
    (releaseGroup (applySaves file (releaseGroup file gid).2) gid).1.1 = 0 ∧
    (releaseGroup (applySaves file (releaseGroup file gid).2) gid).2 =
      [{ loadRegistry file with
         allocations :=
           (loadRegistry file).allocations.filter (fun e => !(e.2.groupId == some gid)) }] := by
  refine ⟨rfl, rfl, rfl, ?_, ?_, ?_⟩
  · intro p
    rw [lookupA_filter _ _ _ (nodup_keysA_of_sorted _ hwf)]
    cases hp : lookupA (loadRegistry file).allocations p with
    | none => rfl
    | some a =>
      by_cases hg : a.groupId = some gid
      · simp [hg]
      · simp [hg]
  · simp only [releaseGroup, applySaves_singleton, loadRegistry_valid]
    rw [List.filter_filter]
    simp
  · simp only [releaseGroup, applySaves_singleton, loadRegistry_valid]
    rw [List.filter_filter]
    simp

/-- Witness for C7 at a concrete input. -/
theorem C7_releaseGroup_witness :
    (releaseGroup (FileContent.valid
        (⟨"1.0.0", [(3000, ⟨0, "x", some "g", some "a"⟩),
                    (3001, ⟨5, "y", none, none⟩)]⟩ : Registry Alloc)) "g").1.1 =
      (releaseGroup (FileContent.valid
        (⟨"1.0.0", [(3000, ⟨0, "x", some "g", some "a"⟩),
                    (3001, ⟨5, "y", none, none⟩)]⟩ : Registry Alloc)) "g").1.2.length ∧
    (releaseGroup (applySaves (FileContent.valid
        (⟨"1.0.0", [(3000, ⟨0, "x", some "g", some "a"⟩),
                    (3001, ⟨5, "y", none, none⟩)]⟩ : Registry Alloc))
        (releaseGroup (FileContent.valid
          (⟨"1.0.0", [(3000, ⟨0, "x", some "g", some "a"⟩),
                      (3001, ⟨5, "y", none, none⟩)]⟩ : Registry Alloc)) "g").2) "g").1.1 = 0 :=
  ⟨(C7_releaseGroup_exact_and_idempotent _ "g" (by decide)).2.1,
   (C7_releaseGroup_exact_and_idempotent (FileContent.valid
      (⟨"1.0.0", [(3000, ⟨0, "x", some "g", some "a"⟩),
                  (3001, ⟨5, "y", none, none⟩)]⟩ : Registry Alloc)) "g" (by decide)).2.2.2.2.1⟩

/-- C1 counterexample: `allocateGroup(2, {}, ["a","a"])` with every port
free succeeds and persists two records, but its returned mapping has a
single entry, not "exactly count distinct ports" as the claim states of
the return value. -/
theorem C1_counterexample_returned_mapping :
    allocateGroup ⟨fun _ => true, fun _ => none, fun _ _ => true⟩
        (.valid emptyRegistry) 2 "m" ["a", "a"] "g" 0 ⟨3000, 3001⟩ =
      (.ok ⟨"g", [("a", 3001)], "m"⟩,
       [⟨"1.0.0", [(3000, ⟨0, "m", some "g", some "a"⟩),
                   (3001, ⟨0, "m", some "g", some "a"⟩)]⟩]) ∧
    ([("a", 3001)] : List (String × Nat)).length ≠ 2 :=
  ⟨rfl, by decide⟩

/-- C1 (amended): `allocateGroup` is all-or-nothing: on success it
allocates exactly `count` distinct ports, none present in the registry
loaded at the start of the call, and persists exactly once with all
`count` new records — though the returned role→port mapping can have
fewer than `count` entries when effective role names collide (see C10);
on failure it fails with `groupAllocationFailed` reporting how many of
the `count` ports were found, every speculatively assigned port is
removed from the in-memory registry (which ends equal to the loaded
one), and nothing is ever persisted, leaving the registry file exactly
as before the call. -/
theorem C1_allocateGroup_all_or_nothing (env : Env) (file : FileContent Alloc)
    (count : Nat) (meta : String) (roles : List String) (gid : String) (now : Nat)
    (range : PortRange) (hwf : SortedKeys (loadRegistry file).allocations) :
    (∀ res saves, allocateGroup env file count meta roles gid now range = (.ok res, saves) →
      ∃ ports : List Nat, ports.Nodup ∧ ports.length = count ∧
        (∀ p ∈ ports, lookupA (loadRegistry file).allocations p = none ∧
          range.start ≤ p ∧ p ≤ range.stop) ∧
        ∃ reg, saves = [reg] ∧
          (∀ p ∈ ports, (lookupA reg.allocations p).isSome) ∧
          (∀ q, q ∉ ports →
            lookupA reg.allocations q = lookupA (loadRegistry file).allocations q) ∧
          res.ports.length = ((List.range count).map (roleFor roles)).toFinset.card) ∧
    (∀ e saves, allocateGroup env file count meta roles gid now range = (.error e, saves) →
      saves = [] ∧ applySaves file saves = file ∧
      (∃ found, found < count ∧ e = .groupAllocationFailed count found)) ∧
    (∀ j accR, groupLoop env range.start (range.stop + 1 - range.start) now meta gid roles
        0 count ⟨(loadRegistry file).allocations, [], []⟩ = .error (j, accR) →
      accR.allocs = (loadRegistry file).allocations ∧ accR.portNumbers.length = j) := by
  refine ⟨?_, ?_, ?_⟩
  · intro res saves h
    obtain ⟨acc, hinv, hres, hsaves⟩ :=
      allocateGroup_ok_spec env file count meta roles gid now range res saves hwf h
    refine ⟨acc.portNumbers, hinv.nodup, hinv.len, ?_,
      { loadRegistry file with allocations := acc.allocs }, hsaves, ?_, ?_, ?_⟩
    · intro p hp
      obtain ⟨h1, h2⟩ := hinv.inRange p hp
      exact ⟨hinv.fresh p hp, h1, by omega⟩
    · intro p hp
      exact hinv.present p hp
    · intro q hq
      exact hinv.rest q hq
    · rw [hres]
      show acc.allocatedPorts.length = _
      calc acc.allocatedPorts.length
          = (acc.allocatedPorts.map Prod.fst).length := (List.length_map _ _).symm
        _ = (acc.allocatedPorts.map Prod.fst).toFinset.card :=
            (toFinset_card_of_nodup _ hinv.rolesNodup).symm
        _ = ((List.range count).map (roleFor roles)).toFinset.card := by
            rw [hinv.rolesSet]
  · intro e saves h
    obtain ⟨hs, found, accR, hlt, he, _, _⟩ :=
      allocateGroup_error_spec env file count meta roles gid now range e saves hwf h
    refine ⟨hs, ?_, found, hlt, he⟩
    rw [hs]
    rfl
  · intro j accR hg
    obtain ⟨_, _, acc', hinv', heqr⟩ :=
      groupLoop_error env range.start (range.stop + 1 - range.start) now meta gid roles
        (loadRegistry file).allocations count 0 _ j accR
        (groupInv_start _ _ _ _ hwf) hg
    constructor
    · rw [heqr]
      exact groupInv_rollback _ _ _ _ _ _ hwf hinv'
    · rw [heqr]
      exact hinv'.len

/-- Witness for C1 at a concrete input: exhausting a one-port range on
an OS with no free ports fails with `groupAllocationFailed 1 0` and
persists nothing. -/
theorem C1_allocateGroup_all_or_nothing_witness :
    ([] : List (Registry Alloc)) = [] ∧
    applySaves (FileContent.valid (emptyRegistry (α := Alloc))) [] = .valid emptyRegistry ∧
    (∃ found, found < 1 ∧
      (PMErr.groupAllocationFailed 1 0 : PMErr) = .groupAllocationFailed 1 found) :=
  (C1_allocateGroup_all_or_nothing ⟨fun _ => false, fun _ => none, fun _ _ => true⟩
      (.valid emptyRegistry) 1 "m" [] "g" 0 ⟨3000, 3000⟩ (by decide)).2.1
    (.groupAllocationFailed 1 0) [] rfl

/-- C10: when the effective role names of the first `count` indices
contain a duplicate (a repeated entry of `roles`, or a collision with a
synthesized `port<i+1>` name), a successful `allocateGroup` still writes
`count` distinct allocation records to the registry, but the returned
role→port mapping has strictly fewer than `count` entries: a later port
assigned the same role name overwrote the earlier one. -/
theorem C10_duplicate_roles_shrink_mapping (env : Env) (file : FileContent Alloc)
    (count : Nat) (meta : String) (roles : List String) (gid : String) (now : Nat)
    (range : PortRange) (res : GroupOk) (saves : List (Registry Alloc))
    (hwf : SortedKeys (loadRegistry file).allocations)
    (hdup : ¬ ((List.range count).map (roleFor roles)).Nodup)
    (h : allocateGroup env file count meta roles gid now range = (.ok res, saves)) :
    res.ports.length < count ∧
    ∃ ports : List Nat, ports.Nodup ∧ ports.length = count ∧
      (∀ p ∈ ports, lookupA (loadRegistry file).allocations p = none) ∧
      ∃ reg, saves = [reg] ∧ (∀ p ∈ ports, (lookupA reg.allocations p).isSome) := by
  obtain ⟨acc, hinv, hres, hsaves⟩ :=
    allocateGroup_ok_spec env file count meta roles gid now range res saves hwf h
  constructor
  · rw [hres]
    show acc.allocatedPorts.length < count
    have hlen : acc.allocatedPorts.length =
        ((List.range count).map (roleFor roles)).toFinset.card := by
      calc acc.allocatedPorts.length
          = (acc.allocatedPorts.map Prod.fst).length := (List.length_map _ _).symm
        _ = (acc.allocatedPorts.map Prod.fst).toFinset.card :=
            (toFinset_card_of_nodup _ hinv.rolesNodup).symm
        _ = ((List.range count).map (roleFor roles)).toFinset.card := by
            rw [hinv.rolesSet]
    have hlt := toFinset_card_lt_of_not_nodup _ hdup
    have hcnt : ((List.range count).map (roleFor roles)).length = count := by simp
    omega
  · exact ⟨acc.portNumbers, hinv.nodup, hinv.len, fun p hp => hinv.fresh p hp,
      { loadRegistry file with allocations := acc.allocs }, hsaves,
      fun p hp => hinv.present p hp⟩

/-- Witness for C10 at a concrete input: count 2, roles `["a","a"]`. -/
theorem C10_duplicate_roles_shrink_mapping_witness :
    (GroupOk.mk "g" [("a", 3001)] "m").ports.length < 2 ∧
    ∃ ports : List Nat, ports.Nodup ∧ ports.length = 2 ∧
      (∀ p ∈ ports,
        lookupA (loadRegistry (FileContent.valid
          (emptyRegistry (α := Alloc)))).allocations p = none) ∧
      ∃ reg, [(⟨"1.0.0", [(3000, ⟨0, "m", some "g", some "a"⟩),
                          (3001, ⟨0, "m", some "g", some "a"⟩)]⟩ : Registry Alloc)] = [reg] ∧
        (∀ p ∈ ports, (lookupA reg.allocations p).isSome) :=
  C10_duplicate_roles_shrink_mapping ⟨fun _ => true, fun _ => none, fun _ _ => true⟩
    (.valid emptyRegistry) 2 "m" ["a", "a"] "g" 0 ⟨3000, 3001⟩
    ⟨"g", [("a", 3001)], "m"⟩
    [⟨"1.0.0", [(3000, ⟨0, "m", some "g", some "a"⟩),
                (3001, ⟨0, "m", some "g", some "a"⟩)]⟩]
    (by decide) (by decide) rfl

end PortManager

namespace PortIndex

/-! ## Claim C3: stale-entry eviction in src/index.js -/

/-- C3 (amended): provided no process currently holds the port at the OS
level, an availability check (`isPortFree`) on a registered port whose
recorded owning process no longer exists evicts the stale entry from the
registry, persists the removal, leaves every other entry untouched, and
reports the port as free. -/
theorem C3_stale_entry_evicted (env : Env) (reg : Registry Alloc) (port : Nat)
    (m : Alloc)
    (hsys : env.getPortPid port = none)
    (hmem : lookupA reg.allocations port = some m)
    (hdead : env.processAlive m.pid = false) :
    isPortFree env reg port =
      (true, { reg with allocations := eraseA reg.allocations port },
       [{ reg with allocations := eraseA reg.allocations port }]) ∧
    lookupA (eraseA reg.allocations port) port = none ∧
    (∀ q, q ≠ port → lookupA (eraseA reg.allocations port) q = lookupA reg.allocations q) := by
  refine ⟨?_, lookupA_eraseA_self _ _, fun q hq => lookupA_eraseA_ne _ _ _ hq⟩
  rw [isPortFree, hsys, hmem]
  simp [hdead]

/-- Witness for C3 at a concrete input: port 3000 registered to dead
process 999, no process on the port. -/
theorem C3_stale_entry_evicted_witness :
    isPortFree ⟨fun _ => none, fun _ => false⟩ ⟨"1.0.0", [(3000, ⟨0, 999⟩)]⟩ 3000 =
      (true, ⟨"1.0.0", []⟩, [⟨"1.0.0", []⟩]) ∧
    lookupA (eraseA [(3000, (⟨0, 999⟩ : Alloc))] 3000) 3000 = none ∧
    (∀ q, q ≠ 3000 → lookupA (eraseA [(3000, (⟨0, 999⟩ : Alloc))] 3000) q =
      lookupA [(3000, (⟨0, 999⟩ : Alloc))] q) :=
  C3_stale_entry_evicted ⟨fun _ => none, fun _ => false⟩ ⟨"1.0.0", [(3000, ⟨0, 999⟩)]⟩
    3000 ⟨0, 999⟩ rfl rfl rfl

/-- C3 counterexample: when another process occupies the port at the OS
level, the stale entry (owning process 999 no longer exists) is NOT
evicted, nothing is persisted, and the port is reported as not free —
the claim as universally stated is false. -/
theorem C3_counterexample_system_occupied :
    ((⟨fun p => if p = 3000 then some 500 else none, fun _ => false⟩ : Env).processAlive 999
      = false) ∧
    isPortFree ⟨fun p => if p = 3000 then some 500 else none, fun _ => false⟩
        ⟨"1.0.0", [(3000, ⟨0, 999⟩)]⟩ 3000 =
      (false, ⟨"1.0.0", [(3000, ⟨0, 999⟩)]⟩, []) :=
  ⟨rfl, rfl⟩

end PortIndex

namespace PortManager

/-! ## Claim C8: the registry-key invariant -/

theorem release_saves_spec (file : FileContent Alloc) (port : Nat) :
    ∀ reg ∈ (release file port).2,
      reg.allocations = eraseA (loadRegistry file).allocations port := by
  intro reg hreg
  simp only [release] at hreg
  by_cases hp : (lookupA (loadRegistry file).allocations port).isSome
  · rw [if_pos hp, List.mem_singleton] at hreg
    subst hreg
    rfl
  · rw [if_neg hp] at hreg
    simp at hreg

theorem killOccupier_saves_spec (env : Env) (file : FileContent Alloc) (port : Nat)
    (force : Bool) :
    ∀ reg ∈ (killOccupier env file port force).2,
      reg.allocations = eraseA (loadRegistry file).allocations port := by
  intro reg hreg
  cases hocc : env.occupier port with
  | none =>
    have heq : (killOccupier env file port force).2 = [] := by
      rw [killOccupier, hocc]
    rw [heq] at hreg
    simp at hreg
  | some occ =>
    by_cases hk : env.killOk occ.pid force
    · have heq : (killOccupier env file port force).2 = (release file port).2 := by
        rw [killOccupier, hocc]
        simp [hk]
      rw [heq] at hreg
      exact release_saves_spec file port reg hreg
    · have heq : (killOccupier env file port force).2 = [] := by
        rw [killOccupier, hocc]
        simp [hk]
      rw [heq] at hreg
      simp at hreg

theorem killOccupier_after_spec (env : Env) (file : FileContent Alloc) (port : Nat)
    (force : Bool) :
    (loadRegistry (applySaves file (killOccupier env file port force).2)).allocations =
      (loadRegistry file).allocations ∨
    (loadRegistry (applySaves file (killOccupier env file port force).2)).allocations =
      eraseA (loadRegistry file).allocations port := by
  cases hocc : env.occupier port with
  | none =>
    left
    have heq : (killOccupier env file port force).2 = [] := by
      rw [killOccupier, hocc]
    rw [heq]
    rfl
  | some occ =>
    by_cases hk : env.killOk occ.pid force
    · have heq : (killOccupier env file port force).2 = (release file port).2 := by
        rw [killOccupier, hocc]
        simp [hk]
      rw [heq]
      by_cases hp : (lookupA (loadRegistry file).allocations port).isSome
      · right
        have hrel : (release file port).2 =
            [{ loadRegistry file with
               allocations := eraseA (loadRegistry file).allocations port }] := by
          simp only [release]
          rw [if_pos hp]
        rw [hrel, applySaves_singleton, loadRegistry_valid]
      · left
        have hrel : (release file port).2 = [] := by
          simp only [release]
          rw [if_neg hp]
        rw [hrel]
        rfl
    · left
      have heq : (killOccupier env file port force).2 = [] := by
        rw [killOccupier, hocc]
        simp [hk]
      rw [heq]
      rfl

theorem allocate_preserves_wf (env : Env) (file : FileContent Alloc) (range : PortRange)
    (now : Nat) (meta : String)
    (hs : SortedKeys (loadRegistry file).allocations)
    (hv : ValidKeys (loadRegistry file).allocations)
    (h1 : 1 ≤ range.start) (h2 : range.stop ≤ 65535) :
    ∀ reg ∈ (allocate env file range now meta).saves,
      SortedKeys reg.allocations ∧ ValidKeys reg.allocations := by
  intro reg hreg
  cases hr : (allocGo env (loadRegistry file).allocations now meta range.start
      (range.stop + 1 - range.start)).1 with
  | none =>
    exfalso
    simp only [allocate] at hreg
    rw [hr] at hreg
    simp at hreg
  | some pa =>
    obtain ⟨p, allocs'⟩ := pa
    obtain ⟨hp1, hp2, _, _, heqa, _⟩ :=
      allocGo_ok env (loadRegistry file).allocations now meta
        (range.stop + 1 - range.start) range.start p allocs' hr
    simp only [allocate] at hreg
    rw [hr] at hreg
    simp only [List.mem_singleton] at hreg
    subst hreg
    show SortedKeys allocs' ∧ ValidKeys allocs'
    rw [heqa]
    exact ⟨sortedKeys_insertA _ _ _ hs,
      validKeys_insertA _ _ _ hv (by omega) (by omega)⟩

theorem reserve_preserves_wf (env : Env) (file : FileContent Alloc) (port : Nat)
    (opts : ReserveOpts) (now : Nat)
    (hs : SortedKeys (loadRegistry file).allocations)
    (hv : ValidKeys (loadRegistry file).allocations)
    (h1 : 1 ≤ port) (h2 : port ≤ 65535) :
    ∀ reg ∈ (reserve env file port opts now).2,
      SortedKeys reg.allocations ∧ ValidKeys reg.allocations := by
  intro reg hreg
  have herase : SortedKeys (eraseA (loadRegistry file).allocations port) ∧
      ValidKeys (eraseA (loadRegistry file).allocations port) :=
    ⟨sortedKeys_eraseA _ _ hs, validKeys_eraseA _ _ hv⟩
  cases hocc : env.occupier port with
  | none =>
    by_cases hfree : env.osFree port = false
    · have heq : (reserve env file port opts now).2 = [] := by
        rw [reserve, hocc]
        simp [hfree]
      rw [heq] at hreg
      simp at hreg
    · have heq : (reserve env file port opts now).2 =
          [{ loadRegistry file with
             allocations := insertA (loadRegistry file).allocations port
               ⟨now, opts.metadata.getD "", none, none⟩ }] := by
        rw [reserve, hocc]
        simp [hfree]
      rw [heq, List.mem_singleton] at hreg
      subst hreg
      exact ⟨sortedKeys_insertA _ _ _ hs, validKeys_insertA _ _ _ hv h1 h2⟩
  | some occ =>
    by_cases hkill : opts.killIfOccupied
    · by_cases hkb : (killOccupier env file port opts.force).1.killed = false
      · have heq : (reserve env file port opts now).2 =
            (killOccupier env file port opts.force).2 := by
          rw [reserve, hocc]
          simp [hkill, hkb]
        rw [heq] at hreg
        have hre := killOccupier_saves_spec env file port opts.force reg hreg
        rw [hre]
        exact herase
      · by_cases hfree : env.osFree port = false
        · have heq : (reserve env file port opts now).2 =
              (killOccupier env file port opts.force).2 := by
            rw [reserve, hocc]
            simp [hkill, hkb, hfree]
          rw [heq] at hreg
          have hre := killOccupier_saves_spec env file port opts.force reg hreg
          rw [hre]
          exact herase
        · have heq : (reserve env file port opts now).2 =
              (killOccupier env file port opts.force).2 ++
              [{ loadRegistry (applySaves file (killOccupier env file port opts.force).2) with
                 allocations := insertA (loadRegistry (applySaves file
                     (killOccupier env file port opts.force).2)).allocations port
                   ⟨now, opts.metadata.getD "", none, none⟩ }] := by
            rw [reserve, hocc]
            simp [hkill, hkb, hfree]
          rw [heq, List.mem_append] at hreg
          rcases hreg with hreg | hreg
          · have hre := killOccupier_saves_spec env file port opts.force reg hreg
            rw [hre]
            exact herase
          · rw [List.mem_singleton] at hreg
            subst hreg
            show SortedKeys (insertA (loadRegistry (applySaves file
                (killOccupier env file port opts.force).2)).allocations port
                ⟨now, opts.metadata.getD "", none, none⟩) ∧
              ValidKeys (insertA (loadRegistry (applySaves file
                (killOccupier env file port opts.force).2)).allocations port
                ⟨now, opts.metadata.getD "", none, none⟩)
            rcases killOccupier_after_spec env file port opts.force with hb | hb
            · rw [hb]
              exact ⟨sortedKeys_insertA _ _ _ hs, validKeys_insertA _ _ _ hv h1 h2⟩
            · rw [hb]
              exact ⟨sortedKeys_insertA _ _ _ herase.1,
                validKeys_insertA _ _ _ herase.2 h1 h2⟩
    · have heq : (reserve env file port opts now).2 = [] := by
        rw [reserve, hocc]
        simp [hkill]
      rw [heq] at hreg
      simp at hreg

theorem allocateGroup_preserves_wf (env : Env) (file : FileContent Alloc) (count : Nat)
    (meta : String) (roles : List String) (gid : String) (now : Nat) (range : PortRange)
    (hs : SortedKeys (loadRegistry file).allocations)
    (hv : ValidKeys (loadRegistry file).allocations)
    (h1 : 1 ≤ range.start) (h2 : range.stop ≤ 65535) :
    ∀ reg ∈ (allocateGroup env file count meta roles gid now range).2,
      SortedKeys reg.allocations ∧ ValidKeys reg.allocations := by
  intro reg hreg
  cases hg : groupLoop env range.start (range.stop + 1 - range.start) now meta gid roles
      0 count ⟨(loadRegistry file).allocations, [], []⟩ with
  | ok acc =>
    have hinv := groupLoop_ok env range.start (range.stop + 1 - range.start) now meta gid
      roles (loadRegistry file).allocations count 0 _ acc
      (groupInv_start _ _ _ _ hs) hg
    rw [Nat.zero_add] at hinv
    simp only [allocateGroup] at hreg
    rw [hg] at hreg
    simp only [List.mem_singleton] at hreg
    subst hreg
    show SortedKeys acc.allocs ∧ ValidKeys acc.allocs
    refine ⟨hinv.sorted, validKeys_of_lookup _ ?_⟩
    intro k hk
    by_cases hkp : k ∈ acc.portNumbers
    · obtain ⟨hk1, hk2⟩ := hinv.inRange k hkp
      exact ⟨by omega, by omega⟩
    · rw [hinv.rest k hkp] at hk
      exact hv k (mem_keysA_of_lookupA_isSome _ _ hk)
  | error fa =>
    exfalso
    simp only [allocateGroup] at hreg
    rw [hg] at hreg
    simp at hreg

theorem release_preserves_wf (file : FileContent Alloc) (port : Nat)
    (hs : SortedKeys (loadRegistry file).allocations)
    (hv : ValidKeys (loadRegistry file).allocations) :
    ∀ reg ∈ (release file port).2,
      SortedKeys reg.allocations ∧ ValidKeys reg.allocations := by
  intro reg hreg
  have hre := release_saves_spec file port reg hreg
  rw [hre]
  exact ⟨sortedKeys_eraseA _ _ hs, validKeys_eraseA _ _ hv⟩

theorem releaseGroup_preserves_wf (file : FileContent Alloc) (gid : String)
    (hs : SortedKeys (loadRegistry file).allocations)
    (hv : ValidKeys (loadRegistry file).allocations) :
    ∀ reg ∈ (releaseGroup file gid).2,
      SortedKeys reg.allocations ∧ ValidKeys reg.allocations := by
  intro reg hreg
  simp only [releaseGroup, List.mem_singleton] at hreg
  subst hreg
  show SortedKeys ((loadRegistry file).allocations.filter _) ∧
    ValidKeys ((loadRegistry file).allocations.filter _)
  exact ⟨sortedKeys_filter _ _ hs, validKeys_filter _ _ hv⟩

theorem cleanup_preserves_wf (file : FileContent Alloc) :
    ∀ reg ∈ (cleanup file).2,
      SortedKeys reg.allocations ∧ ValidKeys reg.allocations := by
  intro reg hreg
  simp only [cleanup, List.mem_singleton] at hreg
  subst hreg
  constructor
  · exact List.sorted_nil
  · intro p hp
    simp [keysA] at hp

/-- C8 counterexample: the code never validates port bounds.  With range
`{start: 0, end: 0}` and the OS probe reporting port 0 available (Node
accepts a bind to port 0), `allocate` registers key 0, which is not a
valid TCP port — so the invariant is not preserved "for every input
range, including ranges whose bounds lie outside 1-65535". -/
theorem C8_counterexample_port_zero :
    (allocate ⟨fun _ => true, fun _ => none, fun _ _ => true⟩ (.valid emptyRegistry)
        ⟨0, 0⟩ 0 "m").result = .ok 0 ∧
    (allocate ⟨fun _ => true, fun _ => none, fun _ _ => true⟩ (.valid emptyRegistry)
        ⟨0, 0⟩ 0 "m").saves = [⟨"1.0.0", [(0, ⟨0, "m", none, none⟩)]⟩] ∧
    ¬ ValidKeys [((0 : Nat), (⟨0, "m", none, none⟩ : Alloc))] :=
  ⟨rfl, rfl, by decide⟩

/-- C8 (amended): every registry persisted by any operation has
strictly-sorted (hence duplicate-free) keys, all valid TCP ports
(1-65535), provided the registry loaded by the call satisfies the
invariant and the supplied range or port lies within 1-65535. -/
theorem C8_registry_key_invariant :
    (∀ env file range now meta,
      SortedKeys (loadRegistry file).allocations →
      ValidKeys (loadRegistry file).allocations →
      1 ≤ range.start → range.stop ≤ 65535 →
      ∀ reg ∈ (allocate env file range now meta).saves,
        SortedKeys reg.allocations ∧ ValidKeys reg.allocations) ∧
    (∀ env file port opts now,
      SortedKeys (loadRegistry file).allocations →
      ValidKeys (loadRegistry file).allocations →
      1 ≤ port → port ≤ 65535 →
      ∀ reg ∈ (reserve env file port opts now).2,
        SortedKeys reg.allocations ∧ ValidKeys reg.allocations) ∧
    (∀ env file count meta roles gid now range,
      SortedKeys (loadRegistry file).allocations →
      ValidKeys (loadRegistry file).allocations →
      1 ≤ range.start → range.stop ≤ 65535 →
      ∀ reg ∈ (allocateGroup env file count meta roles gid now range).2,
        SortedKeys reg.allocations ∧ ValidKeys reg.allocations) ∧
    (∀ file port,
      SortedKeys (loadRegistry file).allocations →
      ValidKeys (loadRegistry file).allocations →
      ∀ reg ∈ (release file port).2,
        SortedKeys reg.allocations ∧ ValidKeys reg.allocations) ∧
    (∀ file gid,
      SortedKeys (loadRegistry file).allocations →
      ValidKeys (loadRegistry file).allocations →
      ∀ reg ∈ (releaseGroup file gid).2,
        SortedKeys reg.allocations ∧ ValidKeys reg.allocations) ∧
    (∀ file, ∀ reg ∈ (cleanup file).2,
      SortedKeys reg.allocations ∧ ValidKeys reg.allocations) :=
  ⟨fun env file range now meta hs hv h1 h2 =>
      allocate_preserves_wf env file range now meta hs hv h1 h2,
   fun env file port opts now hs hv h1 h2 =>
      reserve_preserves_wf env file port opts now hs hv h1 h2,
   fun env file count meta roles gid now range hs hv h1 h2 =>
      allocateGroup_preserves_wf env file count meta roles gid now range hs hv h1 h2,
   fun file port hs hv => release_preserves_wf file port hs hv,
   fun file gid hs hv => releaseGroup_preserves_wf file gid hs hv,
   fun file => cleanup_preserves_wf file⟩

/-- Witness for C8 at concrete inputs, one per operation. -/
theorem C8_registry_key_invariant_witness :
    (SortedKeys [((1 : Nat), (⟨0, "m", none, none⟩ : Alloc))] ∧
      ValidKeys [((1 : Nat), (⟨0, "m", none, none⟩ : Alloc))]) ∧
    (SortedKeys [((1 : Nat), (⟨0, "", none, none⟩ : Alloc))] ∧
      ValidKeys [((1 : Nat), (⟨0, "", none, none⟩ : Alloc))]) ∧
    (SortedKeys [((1 : Nat), (⟨0, "m", some "g", some "port1"⟩ : Alloc))] ∧
      ValidKeys [((1 : Nat), (⟨0, "m", some "g", some "port1"⟩ : Alloc))]) ∧
    (SortedKeys ([] : List (Nat × Alloc)) ∧ ValidKeys ([] : List (Nat × Alloc))) ∧
    (SortedKeys ([] : List (Nat × Alloc)) ∧ ValidKeys ([] : List (Nat × Alloc))) ∧
    (SortedKeys ([] : List (Nat × Alloc)) ∧ ValidKeys ([] : List (Nat × Alloc))) :=
  ⟨C8_registry_key_invariant.1 ⟨fun _ => true, fun _ => none, fun _ _ => true⟩
      (.valid emptyRegistry) ⟨1, 1⟩ 0 "m" (by decide) (by decide) (by decide) (by decide)
      ⟨"1.0.0", [(1, ⟨0, "m", none, none⟩)]⟩ (List.mem_singleton.mpr rfl),
   C8_registry_key_invariant.2.1 ⟨fun _ => true, fun _ => none, fun _ _ => true⟩
      (.valid emptyRegistry) 1 ⟨false, false, none⟩ 0 (by decide) (by decide)
      (by decide) (by decide)
      ⟨"1.0.0", [(1, ⟨0, "", none, none⟩)]⟩ (List.mem_singleton.mpr rfl),
   C8_registry_key_invariant.2.2.1 ⟨fun _ => true, fun _ => none, fun _ _ => true⟩
      (.valid emptyRegistry) 1 "m" [] "g" 0 ⟨1, 1⟩ (by decide) (by decide)
      (by decide) (by decide)
      ⟨"1.0.0", [(1, ⟨0, "m", some "g", some "port1"⟩)]⟩ (List.mem_singleton.mpr rfl),
   C8_registry_key_invariant.2.2.2.1
      (.valid ⟨"1.0.0", [(1, ⟨0, "m", none, none⟩)]⟩) 1 (by decide) (by decide)
      ⟨"1.0.0", []⟩ (List.mem_singleton.mpr rfl),
   C8_registry_key_invariant.2.2.2.2.1 (.valid emptyRegistry) "g" (by decide) (by decide)
      ⟨"1.0.0", []⟩ (List.mem_singleton.mpr rfl),
   C8_registry_key_invariant.2.2.2.2.2 (.valid emptyRegistry)
      ⟨"1.0.0", []⟩ (List.mem_singleton.mpr rfl)⟩

end PortManager

end GosikiOS
